import Mathlib

/-!
# DeltaSim Pro slicer core: a shallow embedding

This file embeds the slicing pipeline of the DeltaSim Pro repository
(STL parsing, geometry transform, plane-triangle intersection, contour
stitching, layer stepping and toolpath emission) in Lean 4 and proves the
specification claims about it.

Modelling conventions, fixed once for the whole file:

* JavaScript numbers (IEEE-754 doubles) are modelled as exact rationals:
  arithmetic is exact, rounding and overflow are not modelled.  The literal
  `0.2` of the source is the rational `1/5`, `EPSILON = 0.05` is `1/20`.
* `Math.PI` is modelled by `mathPI`, the exact rational value of the
  IEEE-754 double that `Math.PI` denotes.
* `Math.hypot` computes a square root, which has no exact rational
  representative, so every definition that uses it is parametric in a
  function `hyp : Q -> Q -> Q` standing for `Math.hypot`; theorems hold for
  every such function (in particular for true Euclidean distance), with
  nonnegativity assumed where a claim needs it.
* The `+Infinity` / `-Infinity` start values of the Z-bounds fold are
  modelled by `Option Q` with `none` for the infinity (the fold over any
  vertex turns it into `some`), matching the identity behaviour of
  `Math.min` / `Math.max` on those start values for finite inputs.
* The two `while` loops of the contour stitcher and the `for (z ...)` layer
  loop are modelled with an explicit iteration bound (`fuel`).  The bounds
  chosen are provably sufficient: the stitcher removes at least one segment
  from its pool per iteration, so a fuel equal to the pool size is exact,
  and for `layerHeight > 0` the Z loop runs exactly
  `(floor ((maxZ - (minZ + 1/5)) / layerHeight) + 1).toNat` iterations.
* The textual G-code lines are modelled by the inductive `GLine` carrying
  the numeric parameters of each emitted line; `toFixed` text formatting is
  not modelled.
* For the one claim about non-finite IEEE values a second, explicitly
  IEEE-flavoured model `FVal` (exact rationals extended with `pinf`,
  `ninf`, `nan`) is used for the plane-intersection routine only.

Source: `src/unnamed/part_000` of the repository.
-/

/-- A 3D point, `Position` of the source (`x`,`y`,`z` components; the
optional `e`/`isTravel` fields of the TypeScript interface are never used
by the slicing core and are omitted). -/
structure Position where
  x : ℚ
  y : ℚ
  z : ℚ
  deriving DecidableEq, Repr

/-- A triangle: three vertices and a normal, as decoded from the STL. -/
structure Triangle where
  p1 : Position
  p2 : Position
  p3 : Position
  normal : Position
  deriving DecidableEq, Repr

/-- An intersection segment.  The source field `end` is a Lean keyword, so
it is named `endPt` here. -/
structure Segment where
  start : Position
  endPt : Position
  deriving DecidableEq, Repr

/-- The slicer settings record (all fields rational). -/
structure SlicerSettings where
  filamentDiameter : ℚ
  nozzleDiameter : ℚ
  layerHeight : ℚ
  temperature : ℚ
  travelSpeed : ℚ
  printSpeed : ℚ
  deriving DecidableEq, Repr

/-- The model transform record: uniform scale plus translation (the
`rotation` field is carried but never used by the slicing core, as in the
source). -/
structure ModelTransform where
  x : ℚ
  y : ℚ
  z : ℚ
  scale : ℚ
  rotation : ℚ
  deriving DecidableEq, Repr

/-- An `ArrayBuffer` viewed through a `DataView`, abstracted to the two
read operations `parseSTL` performs: a little-endian `Uint32` at a byte
offset and a little-endian `Float32` at a byte offset (the decoded float
modelled as a rational). -/
structure DataView where
  getUint32 : ℕ → ℕ
  getFloat32 : ℕ → ℚ

/-- Reads the three consecutive `Float32` fields of one vector. -/
def readVec (view : DataView) (offset : ℕ) : Position :=
  ⟨view.getFloat32 offset, view.getFloat32 (offset + 4), view.getFloat32 (offset + 8)⟩

/-- One 50-byte STL record at `offset`: normal, then the three vertices
(the two trailing attribute bytes are ignored, as in the source). -/
def readTriangle (view : DataView) (offset : ℕ) : Triangle :=
  { normal := readVec view offset
    p1 := readVec view (offset + 12)
    p2 := readVec view (offset + 24)
    p3 := readVec view (offset + 36) }

/-- The record-reading loop of `parseSTL`: `n` iterations starting at byte
`offset`, advancing by 50 bytes per record. -/
def parseSTLLoop (view : DataView) : ℕ → ℕ → List Triangle
  | _, 0 => []
  | offset, n + 1 => readTriangle view offset :: parseSTLLoop view (offset + 50) n

/-- `parseSTL`: reads the declared `Uint32` triangle count at byte offset
80, caps it at the browser safety limit 25000, and decodes that many
50-byte records starting at byte offset 84. -/
def parseSTL (view : DataView) : List Triangle :=
  parseSTLLoop view 84 (min (view.getUint32 80) 25000)

/-- `applyTransform`: every vertex becomes `vertex * scale + translation`;
the normal passes through unmodified. -/
def applyTransform (tri : Triangle) (t : ModelTransform) : Triangle :=
  let transformPoint : Position → Position := fun p =>
    ⟨p.x * t.scale + t.x, p.y * t.scale + t.y, p.z * t.scale + t.z⟩
  { p1 := transformPoint tri.p1
    p2 := transformPoint tri.p2
    p3 := transformPoint tri.p3
    normal := tri.normal }

/-- `Math.min(acc, v)` with accumulator starting at `+Infinity`, modelled
as `Option ℚ` (`none` is the infinity). -/
def omin : Option ℚ → ℚ → Option ℚ
  | none, v => some v
  | some a, v => some (min a v)

/-- `Math.max(acc, v)` with accumulator starting at `-Infinity`. -/
def omax : Option ℚ → ℚ → Option ℚ
  | none, v => some v
  | some a, v => some (max a v)

/-- `getZBounds`: the fold over all triangles of
`min = Math.min(min, p1.z, p2.z, p3.z)` / `max = Math.max(max, ...)`,
with start values `(+Infinity, -Infinity)` modelled as `(none, none)`. -/
def getZBounds (triangles : List Triangle) : Option ℚ × Option ℚ :=
  triangles.foldl
    (fun acc t =>
      (omin (omin (omin acc.1 t.p1.z) t.p2.z) t.p3.z,
       omax (omax (omax acc.2 t.p1.z) t.p2.z) t.p3.z))
    (none, none)

/-- `intersectEdge` of `intersectTriangleZ`: linear interpolation along the
edge from `p1` to `p2` at parameter `t = (z - p1.z) / (p2.z - p1.z)`, the
Z coordinate set to `z` exactly. -/
def intersectEdge (z : ℚ) (p1 p2 : Position) : Position :=
  let t := (z - p1.z) / (p2.z - p1.z)
  ⟨p1.x + t * (p2.x - p1.x), p1.y + t * (p2.y - p1.y), z⟩

/-- `intersectTriangleZ`: classify the three vertices against the plane
(`p.z >= z` counts as above, otherwise below); return `none` when all
three fall on one side, otherwise interpolate the two edges joining the
isolated vertex to the other two.  The list patterns `[a], [b0, b1]`
mirror the source's `above[0]`, `below[0]`, `below[1]` indexing; the final
catch-all mirrors the source's unreachable trailing `return null`. -/
def intersectTriangleZ (tri : Triangle) (z : ℚ) : Option Segment :=
  let points := [tri.p1, tri.p2, tri.p3]
  let above := points.filter fun p => decide (z ≤ p.z)
  let below := points.filter fun p => decide (p.z < z)
  if above.length = 3 ∨ below.length = 3 then none
  else
    match above, below with
    | [a], [b0, b1] => some ⟨intersectEdge z a b0, intersectEdge z a b1⟩
    | [a0, a1], [b] => some ⟨intersectEdge z b a0, intersectEdge z b a1⟩
    | _, _ => none

/-- `EPSILON = 0.05` mm, the 2D endpoint-matching tolerance. -/
def EPSILON : ℚ := 1 / 20

/-- The comparison `Math.hypot (p.x - q.x) (p.y - q.y) < eps` of the
stitcher, parametric in the model `hyp` of `Math.hypot`. -/
def near (hyp : ℚ → ℚ → ℚ) (eps : ℚ) (p q : Position) : Bool :=
  decide (hyp (p.x - q.x) (p.y - q.y) < eps)

/-- `pool.findIndex(cond)` followed by `pool.splice(idx, 1)`, fused: the
first segment satisfying `cond` together with the pool with that one
segment removed (scan order is pool order, as in the source). -/
def findMatch (cond : Segment → Bool) : List Segment → Option (Segment × List Segment)
  | [] => none
  | seg :: rest =>
    if cond seg then some (seg, rest)
    else
      match findMatch cond rest with
      | none => none
      | some (m, rest2) => some (m, seg :: rest2)

/-- The inner `while (growing)` loop of `chainSegments`: repeatedly find a
pool segment one of whose endpoints is within `EPSILON` of the loop's tail,
remove it and append its other endpoint.  Each iteration removes one
segment from the pool, so a fuel equal to the pool size is an exact bound
(`growLoop_fuel_exact` below). -/
def growLoop (hyp : ℚ → ℚ → ℚ) : ℕ → List Position → List Segment → List Position × List Segment
  | 0, loop, pool => (loop, pool)
  | fuel + 1, loop, pool =>
    let tailPt := loop.getLastD ⟨0, 0, 0⟩
    match findMatch (fun seg => near hyp EPSILON seg.start tailPt || near hyp EPSILON seg.endPt tailPt) pool with
    | none => (loop, pool)
    | some (nextSeg, rest) =>
      let nxt := if near hyp EPSILON nextSeg.start tailPt then nextSeg.endPt else nextSeg.start
      growLoop hyp fuel (loop ++ [nxt]) rest

/-- The closure step of `chainSegments`: when the loop's first and last
points are within `2 * EPSILON` (2D), overwrite the last point with the
first. -/
def closeLoop (hyp : ℚ → ℚ → ℚ) (loop : List Position) : List Position :=
  let headPt := loop.headD ⟨0, 0, 0⟩
  let tailPt := loop.getLastD ⟨0, 0, 0⟩
  if near hyp (EPSILON * 2) headPt tailPt then loop.dropLast ++ [headPt] else loop

/-- The outer `while (pool.length > 0)` loop of `chainSegments`: pop the
last pool segment as a seed, grow, close, keep the loop when it has more
than 2 points.  Each iteration consumes at least the popped seed, so a
fuel equal to the pool size is sufficient. -/
def chainLoop (hyp : ℚ → ℚ → ℚ) : ℕ → List Segment → List (List Position) → List (List Position)
  | 0, _, loops => loops
  | fuel + 1, pool, loops =>
    match pool.getLast? with
    | none => loops
    | some firstSeg =>
      let rest := pool.dropLast
      let grown := growLoop hyp rest.length [firstSeg.start, firstSeg.endPt] rest
      let loop := closeLoop hyp grown.1
      chainLoop hyp fuel grown.2 (if 2 < loop.length then loops ++ [loop] else loops)

/-- `chainSegments`: stitch a layer's unordered segment soup into loops. -/
def chainSegments (hyp : ℚ → ℚ → ℚ) (segments : List Segment) : List (List Position) :=
  chainLoop hyp segments.length segments []

/-- The cheap per-triangle rejection of the layer loop:
`z < Math.min(p1.z, p2.z, p3.z) || z > Math.max(p1.z, p2.z, p3.z)`. -/
def cullTriangle (tri : Triangle) (z : ℚ) : Bool :=
  let tMin := min tri.p1.z (min tri.p2.z tri.p3.z)
  let tMax := max tri.p1.z (max tri.p2.z tri.p3.z)
  decide (z < tMin) || decide (tMax < z)

/-- One layer's segment collection as the source computes it: every
triangle is first tested against its own Z extent and only survivors are
passed to `intersectTriangleZ`. -/
def layerSegmentsCulled (triangles : List Triangle) (z : ℚ) : List Segment :=
  triangles.filterMap fun tri =>
    if cullTriangle tri z then none else intersectTriangleZ tri z

/-- The comparison object for the refinement claim, following the spec's
words: the same per-layer segment collection computed by invoking
`intersectTriangleZ` on every triangle, with no extent cull. -/
def layerSegmentsAll (triangles : List Triangle) (z : ℚ) : List Segment :=
  triangles.filterMap fun tri => intersectTriangleZ tri z

/-- One layer's contours: stitch the layer's segments when there are any
(`chainSegments` of an empty collection is also empty, but the source
branches on `layerSegments.length > 0`, so the branch is kept). -/
def sliceLayerAt (hyp : ℚ → ℚ → ℚ) (triangles : List Triangle) (z : ℚ) : List (List Position) :=
  let layerSegments := layerSegmentsCulled triangles z
  if 0 < layerSegments.length then chainSegments hyp layerSegments else []

/-- The `for (let z = minZ + 0.2; z <= maxZ; z += layerHeight)` stepping,
with an explicit iteration bound.  The bound used by `layerZList` is exact
for `layerHeight > 0` (`sliceLayers_count` below); when the first guard
already fails the result is `[]` for every fuel. -/
def zLoop (maxZ h : ℚ) : ℚ → ℕ → List ℚ
  | _, 0 => []
  | z, fuel + 1 => if z ≤ maxZ then z :: zLoop maxZ h (z + h) fuel else []

/-- The list of layer heights: start at `minZ + 0.2`, step by `h`, stop
after `maxZ`. -/
def layerZList (minZ maxZ h : ℚ) : List ℚ :=
  zLoop maxZ h (minZ + 1 / 5) ((⌊(maxZ - (minZ + 1 / 5)) / h⌋ + 1).toNat)

/-- The per-layer slicing pass of `sliceMesh`: one contour list per layer
height, in Z order. -/
def sliceLayers (hyp : ℚ → ℚ → ℚ) (triangles : List Triangle) (s : SlicerSettings)
    (minZ maxZ : ℚ) : List (List (List Position)) :=
  (layerZList minZ maxZ s.layerHeight).map (sliceLayerAt hyp triangles)

/-- One emitted G-code line, carrying the numeric parameters the source
interpolates into the line's text (text formatting is not modelled). -/
inductive GLine where
  /-- the generator banner comment -/
  | banner : GLine
  /-- `M104 S<temp>` set temperature -/
  | m104 : ℚ → GLine
  /-- `G28` home all axes -/
  | g28 : GLine
  /-- `M109 S<temp>` wait for temperature -/
  | m109 : ℚ → GLine
  /-- `G90` absolute positioning -/
  | g90 : GLine
  /-- `G92 E0` reset extruder -/
  | g92e0 : GLine
  /-- the `; --- Layer n Z=... ---` comment -/
  | layerComment : ℕ → ℚ → GLine
  /-- `G1 Z<z> F<f>` layer change -/
  | g1z : ℚ → ℚ → GLine
  /-- `G0 X<x> Y<y> F<f>` travel move -/
  | g0xy : ℚ → ℚ → ℚ → GLine
  /-- `G1 X<x> Y<y> E<e> F<f>` extruding move -/
  | g1xye : ℚ → ℚ → ℚ → ℚ → GLine
  /-- `M84` disable motors -/
  | m84 : GLine
  deriving DecidableEq, Repr

/-- The exact rational value of the IEEE-754 double `Math.PI`. -/
def mathPI : ℚ := 884279719003555 / 281474976710656

/-- The filament cross-section area `Math.PI * (filamentDiameter / 2) ^ 2`. -/
def filamentArea (s : SlicerSettings) : ℚ :=
  mathPI * (s.filamentDiameter / 2) ^ 2

/-- `extrusionPerMM = (nozzleDiameter * layerHeight) / filamentArea`. -/
def extrusionPerMM (s : SlicerSettings) : ℚ :=
  s.nozzleDiameter * s.layerHeight / filamentArea s

/-- The mutable emission state of the G-code pass: emitted lines, the
visualization point stream, the two running totals and the current tool
position. -/
structure EmitState where
  lines : List GLine
  visual : List Position
  totalFilament : ℚ
  totalTime : ℚ
  currentPos : Position
  deriving DecidableEq, Repr

/-- The body of the extrusion loop `for (let i = 1; i < loop.length; i++)`:
one extruding move to `p`, its distance measured from the current position
in X/Y only. -/
def extrudeStep (hyp : ℚ → ℚ → ℚ) (s : SlicerSettings) (layerZ : ℚ)
    (st : EmitState) (p : Position) : EmitState :=
  let dist := hyp (p.x - st.currentPos.x) (p.y - st.currentPos.y)
  let extrudeAmount := dist * extrusionPerMM s
  let tf := st.totalFilament + extrudeAmount
  { lines := st.lines ++ [GLine.g1xye p.x p.y tf s.printSpeed]
    visual := st.visual ++ [⟨p.x, p.y, layerZ⟩]
    totalFilament := tf
    totalTime := st.totalTime + dist / s.printSpeed * 60
    currentPos := ⟨p.x, p.y, layerZ⟩ }

/-- The per-loop body of the emission pass: skip loops of fewer than 2
points; travel to the loop's first point when it is farther than 0.05 mm
in X/Y from the current position; then extrude through the remaining
points. -/
def loopStep (hyp : ℚ → ℚ → ℚ) (s : SlicerSettings) (layerZ : ℚ)
    (st : EmitState) (loop : List Position) : EmitState :=
  if loop.length < 2 then st
  else
    let start := loop.headD ⟨0, 0, 0⟩
    let travelDist := hyp (start.x - st.currentPos.x) (start.y - st.currentPos.y)
    let st1 :=
      if 1 / 20 < travelDist then
        { st with
          lines := st.lines ++ [GLine.g0xy start.x start.y s.travelSpeed]
          visual := st.visual ++ [⟨start.x, start.y, layerZ⟩]
          totalTime := st.totalTime + travelDist / s.travelSpeed * 60
          currentPos := ⟨start.x, start.y, layerZ⟩ }
      else st
    (loop.drop 1).foldl (extrudeStep hyp s layerZ) st1

/-- The per-layer body of the emission pass (`layers.forEach`): empty
layers are skipped; otherwise a layer comment and a Z move are emitted,
the Z move's time is accounted at travel speed, and every loop of the
layer is processed. -/
def layerStep (hyp : ℚ → ℚ → ℚ) (s : SlicerSettings) (minZ : ℚ)
    (st : EmitState) (idxLoops : ℕ × List (List Position)) : EmitState :=
  let index := idxLoops.1
  let loops := idxLoops.2
  if loops = [] then st
  else
    let layerZ := minZ + 1 / 5 + index * s.layerHeight
    let st1 :=
      { st with
        lines := st.lines ++ [GLine.layerComment (index + 1) layerZ, GLine.g1z layerZ s.travelSpeed]
        totalTime := st.totalTime + |layerZ - st.currentPos.z| / s.travelSpeed * 60
        currentPos := ⟨st.currentPos.x, st.currentPos.y, layerZ⟩ }
    loops.foldl (loopStep hyp s layerZ) st1

/-- The whole emission pass over the indexed layer list. -/
def emitLayers (hyp : ℚ → ℚ → ℚ) (s : SlicerSettings) (minZ : ℚ)
    (layers : List (List (List Position))) (st : EmitState) : EmitState :=
  layers.enum.foldl (layerStep hyp s minZ) st

/-- The fixed preamble: banner, heat-up, home, wait, absolute positioning,
extruder reset. -/
def preamble (s : SlicerSettings) : List GLine :=
  [GLine.banner, GLine.m104 s.temperature, GLine.g28, GLine.m109 s.temperature,
   GLine.g90, GLine.g92e0]

/-- The fixed postamble: heater off, home, disable motors. -/
def postamble : List GLine :=
  [GLine.m104 0, GLine.g28, GLine.m84]

/-- The emission state before any layer is processed: the preamble is
emitted, both totals are zero, the tool sits at the origin. -/
def initialState (s : SlicerSettings) : EmitState :=
  { lines := preamble s, visual := [], totalFilament := 0, totalTime := 0,
    currentPos := ⟨0, 0, 0⟩ }

/-- The result record of `sliceMesh`: the visualization point stream and
the G-code file's lines and totals. -/
structure SliceResult where
  paths : List Position
  lines : List GLine
  totalTime : ℚ
  totalFilament : ℚ
  deriving DecidableEq, Repr

/-- Append the postamble and package the final state. -/
def finishState (st : EmitState) : SliceResult :=
  ⟨st.visual, st.lines ++ postamble, st.totalTime, st.totalFilament⟩

/-- `sliceMesh`: transform the mesh, take its Z bounds, slice layer by
layer and emit.  When the mesh is empty both bounds stay at their infinite
start values (`none`) and the source's Z loop runs zero times, so only
preamble and postamble are emitted. -/
def sliceMesh (hyp : ℚ → ℚ → ℚ) (rawTriangles : List Triangle)
    (transform : ModelTransform) (s : SlicerSettings) : SliceResult :=
  let triangles := rawTriangles.map fun tri => applyTransform tri transform
  match getZBounds triangles with
  | (some minZ, some maxZ) =>
    finishState (emitLayers hyp s minZ (sliceLayers hyp triangles s minZ maxZ) (initialState s))
  | _ => finishState (initialState s)

/-! ## Evaluation of `intersectTriangleZ` by vertex classification

One lemma per sign configuration of the three vertices against the plane
(`u` = above, `z ≤ p.z`; `d` = below, `p.z < z`), mirroring which lists the
source's classification pass builds and which branch then runs. -/

lemma iTZ_eval_uuu (tri : Triangle) (z : ℚ) (h1 : z ≤ tri.p1.z) (h2 : z ≤ tri.p2.z)
    (h3 : z ≤ tri.p3.z) : intersectTriangleZ tri z = none := by
  simp [intersectTriangleZ, h1, h2, h3, h1.not_lt, h2.not_lt, h3.not_lt]

lemma iTZ_eval_ddd (tri : Triangle) (z : ℚ) (h1 : tri.p1.z < z) (h2 : tri.p2.z < z)
    (h3 : tri.p3.z < z) : intersectTriangleZ tri z = none := by
  simp [intersectTriangleZ, h1, h2, h3, h1.not_le, h2.not_le, h3.not_le]

lemma iTZ_eval_udd (tri : Triangle) (z : ℚ) (h1 : z ≤ tri.p1.z) (h2 : tri.p2.z < z)
    (h3 : tri.p3.z < z) :
    intersectTriangleZ tri z = some ⟨intersectEdge z tri.p1 tri.p2, intersectEdge z tri.p1 tri.p3⟩ := by
  simp [intersectTriangleZ, h1, h2, h3, h1.not_lt, h2.not_le, h3.not_le]

lemma iTZ_eval_dud (tri : Triangle) (z : ℚ) (h1 : tri.p1.z < z) (h2 : z ≤ tri.p2.z)
    (h3 : tri.p3.z < z) :
    intersectTriangleZ tri z = some ⟨intersectEdge z tri.p2 tri.p1, intersectEdge z tri.p2 tri.p3⟩ := by
  simp [intersectTriangleZ, h1, h2, h3, h1.not_le, h2.not_lt, h3.not_le]

lemma iTZ_eval_ddu (tri : Triangle) (z : ℚ) (h1 : tri.p1.z < z) (h2 : tri.p2.z < z)
    (h3 : z ≤ tri.p3.z) :
    intersectTriangleZ tri z = some ⟨intersectEdge z tri.p3 tri.p1, intersectEdge z tri.p3 tri.p2⟩ := by
  simp [intersectTriangleZ, h1, h2, h3, h1.not_le, h2.not_le, h3.not_lt]

lemma iTZ_eval_uud (tri : Triangle) (z : ℚ) (h1 : z ≤ tri.p1.z) (h2 : z ≤ tri.p2.z)
    (h3 : tri.p3.z < z) :
    intersectTriangleZ tri z = some ⟨intersectEdge z tri.p3 tri.p1, intersectEdge z tri.p3 tri.p2⟩ := by
  simp [intersectTriangleZ, h1, h2, h3, h1.not_lt, h2.not_lt, h3.not_le]

lemma iTZ_eval_udu (tri : Triangle) (z : ℚ) (h1 : z ≤ tri.p1.z) (h2 : tri.p2.z < z)
    (h3 : z ≤ tri.p3.z) :
    intersectTriangleZ tri z = some ⟨intersectEdge z tri.p2 tri.p1, intersectEdge z tri.p2 tri.p3⟩ := by
  simp [intersectTriangleZ, h1, h2, h3, h1.not_lt, h2.not_le, h3.not_lt]

lemma iTZ_eval_duu (tri : Triangle) (z : ℚ) (h1 : tri.p1.z < z) (h2 : z ≤ tri.p2.z)
    (h3 : z ≤ tri.p3.z) :
    intersectTriangleZ tri z = some ⟨intersectEdge z tri.p1 tri.p2, intersectEdge z tri.p1 tri.p3⟩ := by
  simp [intersectTriangleZ, h1, h2, h3, h1.not_le, h2.not_lt, h3.not_lt]

/-- C2.  `intersectTriangleZ` classifies a vertex as above exactly when its
Z is at least the target (on-plane vertices count as above), and returns
`none` exactly when all three vertices classify to one side; in particular
all-strictly-above and all-strictly-below triangles give `none`. -/
theorem intersectTriangleZ_none_iff (tri : Triangle) (z : ℚ) :
    (intersectTriangleZ tri z = none ↔
      (z ≤ tri.p1.z ∧ z ≤ tri.p2.z ∧ z ≤ tri.p3.z) ∨
      (tri.p1.z < z ∧ tri.p2.z < z ∧ tri.p3.z < z)) ∧
    ((z < tri.p1.z ∧ z < tri.p2.z ∧ z < tri.p3.z) → intersectTriangleZ tri z = none) ∧
    ((tri.p1.z < z ∧ tri.p2.z < z ∧ tri.p3.z < z) → intersectTriangleZ tri z = none) := by
  rcases le_or_lt z tri.p1.z with h1 | h1 <;> rcases le_or_lt z tri.p2.z with h2 | h2 <;>
    rcases le_or_lt z tri.p3.z with h3 | h3
  · simp [iTZ_eval_uuu tri z h1 h2 h3, h1, h2, h3, h1.not_lt]
  · simp [iTZ_eval_uud tri z h1 h2 h3, h1, h2, h3, h1.not_lt, h3.not_le, h3.asymm]
  · simp [iTZ_eval_udu tri z h1 h2 h3, h1, h2, h3, h1.not_lt, h2.not_le, h2.asymm]
  · simp [iTZ_eval_udd tri z h1 h2 h3, h1, h2, h3, h1.not_lt, h2.not_le, h2.asymm]
  · simp [iTZ_eval_duu tri z h1 h2 h3, h1, h2, h3, h1.not_le, h1.asymm, h2.not_lt]
  · simp [iTZ_eval_dud tri z h1 h2 h3, h1, h2, h3, h1.not_le, h1.asymm, h3.not_le]
  · simp [iTZ_eval_ddu tri z h1 h2 h3, h1, h2, h3, h1.not_le, h1.asymm, h3.not_lt]
  · simp [iTZ_eval_ddd tri z h1 h2 h3, h1, h2, h3, h1.not_le, h1.asymm]

/-- The cull test only rejects triangles whose intersection is `none`. -/
lemma cull_implies_none (tri : Triangle) (z : ℚ) (h : cullTriangle tri z = true) :
    intersectTriangleZ tri z = none := by
  have h2 : z < min tri.p1.z (min tri.p2.z tri.p3.z) ∨
      max tri.p1.z (max tri.p2.z tri.p3.z) < z := by
    simpa [cullTriangle] using h
  rcases h2 with h2 | h2
  · rcases lt_min_iff.1 h2 with ⟨hm1, hm23⟩
    rcases lt_min_iff.1 hm23 with ⟨hm2, hm3⟩
    exact iTZ_eval_uuu tri z hm1.le hm2.le hm3.le
  · rcases max_lt_iff.1 h2 with ⟨hm1, hm23⟩
    rcases max_lt_iff.1 hm23 with ⟨hm2, hm3⟩
    exact iTZ_eval_ddd tri z hm1 hm2 hm3

/-- C5.  The bounding-extent cull is semantics-preserving: a triangle whose
Z extent excludes the plane intersects in `none`, so the culled per-layer
segment collection equals the uncull one for every triangle list and every
plane height. -/
theorem layerSegments_cull_eq :
    (∀ (tri : Triangle) (z : ℚ), cullTriangle tri z = true →
      intersectTriangleZ tri z = none) ∧
    (∀ (triangles : List Triangle) (z : ℚ),
      layerSegmentsCulled triangles z = layerSegmentsAll triangles z) := by
  refine ⟨cull_implies_none, fun triangles z => ?_⟩
  induction triangles with
  | nil => rfl
  | cons tri rest ih =>
    simp only [layerSegmentsCulled, layerSegmentsAll] at ih ⊢
    by_cases hc : cullTriangle tri z = true
    · simp [List.filterMap_cons, hc, cull_implies_none tri z hc, ih]
    · simp [List.filterMap_cons, hc, ih]

/-- The Bool classification of one vertex, the source's `p.z >= z`. -/
def vertexAbove (z : ℚ) (p : Position) : Bool := decide (z ≤ p.z)

/-- C3.  Whenever the three vertices do not all classify to one side, the
result is a segment whose endpoints interpolate the two edges joining the
isolated vertex (the one whose classification differs) to the other two,
with Z set to the target exactly. -/
theorem intersectTriangleZ_mixed (tri : Triangle) (z : ℚ)
    (hmix : ¬ ((z ≤ tri.p1.z ∧ z ≤ tri.p2.z ∧ z ≤ tri.p3.z) ∨
               (tri.p1.z < z ∧ tri.p2.z < z ∧ tri.p3.z < z))) :
    ∃ iso o1 o2 : Position,
      List.Perm [iso, o1, o2] [tri.p1, tri.p2, tri.p3] ∧
      vertexAbove z o1 = vertexAbove z o2 ∧
      vertexAbove z iso ≠ vertexAbove z o1 ∧
      intersectTriangleZ tri z = some ⟨intersectEdge z iso o1, intersectEdge z iso o2⟩ ∧
      intersectEdge z iso o1 =
        ⟨iso.x + (z - iso.z) / (o1.z - iso.z) * (o1.x - iso.x),
         iso.y + (z - iso.z) / (o1.z - iso.z) * (o1.y - iso.y), z⟩ ∧
      intersectEdge z iso o2 =
        ⟨iso.x + (z - iso.z) / (o2.z - iso.z) * (o2.x - iso.x),
         iso.y + (z - iso.z) / (o2.z - iso.z) * (o2.y - iso.y), z⟩ ∧
      (intersectEdge z iso o1).z = z ∧ (intersectEdge z iso o2).z = z := by
  rcases le_or_lt z tri.p1.z with h1 | h1 <;> rcases le_or_lt z tri.p2.z with h2 | h2 <;>
    rcases le_or_lt z tri.p3.z with h3 | h3
  · exact absurd (Or.inl ⟨h1, h2, h3⟩) hmix
  · refine ⟨tri.p3, tri.p1, tri.p2, ?_, ?_, ?_, iTZ_eval_uud tri z h1 h2 h3, rfl, rfl, rfl, rfl⟩
    · exact (List.Perm.swap tri.p1 tri.p3 [tri.p2]).trans
        (List.Perm.cons tri.p1 (List.Perm.swap tri.p2 tri.p3 []))
    · simp [vertexAbove, h1, h2]
    · simp [vertexAbove, h1, h3.not_le]
  · refine ⟨tri.p2, tri.p1, tri.p3, List.Perm.swap tri.p1 tri.p2 [tri.p3], ?_, ?_,
      iTZ_eval_udu tri z h1 h2 h3, rfl, rfl, rfl, rfl⟩
    · simp [vertexAbove, h1, h3]
    · simp [vertexAbove, h1, h2.not_le]
  · refine ⟨tri.p1, tri.p2, tri.p3, List.Perm.refl _, ?_, ?_,
      iTZ_eval_udd tri z h1 h2 h3, rfl, rfl, rfl, rfl⟩
    · simp [vertexAbove, h2.not_le, h3.not_le]
    · simp [vertexAbove, h1, h2.not_le]
  · refine ⟨tri.p1, tri.p2, tri.p3, List.Perm.refl _, ?_, ?_,
      iTZ_eval_duu tri z h1 h2 h3, rfl, rfl, rfl, rfl⟩
    · simp [vertexAbove, h2, h3]
    · simp [vertexAbove, h1.not_le, h2]
  · refine ⟨tri.p2, tri.p1, tri.p3, List.Perm.swap tri.p1 tri.p2 [tri.p3], ?_, ?_,
      iTZ_eval_dud tri z h1 h2 h3, rfl, rfl, rfl, rfl⟩
    · simp [vertexAbove, h1.not_le, h3.not_le]
    · simp [vertexAbove, h1.not_le, h2]
  · refine ⟨tri.p3, tri.p1, tri.p2, ?_, ?_, ?_, iTZ_eval_ddu tri z h1 h2 h3, rfl, rfl, rfl, rfl⟩
    · exact (List.Perm.swap tri.p1 tri.p3 [tri.p2]).trans
        (List.Perm.cons tri.p1 (List.Perm.swap tri.p2 tri.p3 []))
    · simp [vertexAbove, h1.not_le, h2.not_le]
    · simp [vertexAbove, h1.not_le, h3]
  · exact absurd (Or.inr ⟨h1, h2, h3⟩) hmix

/-- Witness for C3 at the spec's example: a triangle with vertex Z values
0, 0, 10 cut at Z = 5 yields both endpoints at Z = 5 with X/Y at the exact
midpoints of the two crossing edges. -/
theorem intersectTriangleZ_mixed_witness :
    intersectTriangleZ ⟨⟨0, 0, 0⟩, ⟨4, 0, 0⟩, ⟨0, 6, 10⟩, ⟨0, 0, 1⟩⟩ 5 =
      some ⟨⟨0, 3, 5⟩, ⟨2, 3, 5⟩⟩ ∧
    (∃ iso o1 o2 : Position,
      List.Perm [iso, o1, o2]
        [(⟨0, 0, 0⟩ : Position), (⟨4, 0, 0⟩ : Position), (⟨0, 6, 10⟩ : Position)] ∧
      vertexAbove 5 o1 = vertexAbove 5 o2 ∧
      vertexAbove 5 iso ≠ vertexAbove 5 o1 ∧
      intersectTriangleZ ⟨⟨0, 0, 0⟩, ⟨4, 0, 0⟩, ⟨0, 6, 10⟩, ⟨0, 0, 1⟩⟩ 5 =
        some ⟨intersectEdge 5 iso o1, intersectEdge 5 iso o2⟩ ∧
      intersectEdge 5 iso o1 =
        ⟨iso.x + (5 - iso.z) / (o1.z - iso.z) * (o1.x - iso.x),
         iso.y + (5 - iso.z) / (o1.z - iso.z) * (o1.y - iso.y), 5⟩ ∧
      intersectEdge 5 iso o2 =
        ⟨iso.x + (5 - iso.z) / (o2.z - iso.z) * (o2.x - iso.x),
         iso.y + (5 - iso.z) / (o2.z - iso.z) * (o2.y - iso.y), 5⟩ ∧
      (intersectEdge 5 iso o1).z = 5 ∧ (intersectEdge 5 iso o2).z = 5) := by
  constructor
  · norm_num [intersectTriangleZ, intersectEdge]
  · exact intersectTriangleZ_mixed ⟨⟨0, 0, 0⟩, ⟨4, 0, 0⟩, ⟨0, 6, 10⟩, ⟨0, 0, 1⟩⟩ 5 (by norm_num)

/-- `parseSTLLoop` decodes exactly its requested record count. -/
lemma parseSTLLoop_length (view : DataView) (n : ℕ) :
    ∀ offset, (parseSTLLoop view offset n).length = n := by
  induction n with
  | zero => intro _; rfl
  | succ n ih => intro offset; simp [parseSTLLoop, ih]

/-- `parseSTLLoop` reads record `i` at byte offset `offset + 50 * i`. -/
lemma parseSTLLoop_get (view : DataView) (n : ℕ) :
    ∀ offset i, i < n →
      (parseSTLLoop view offset n)[i]? = some (readTriangle view (offset + 50 * i)) := by
  induction n with
  | zero => intro _ i hi; omega
  | succ n ih =>
    intro offset i hi
    cases i with
    | zero => simp [parseSTLLoop]
    | succ i =>
      have harith : offset + 50 + 50 * i = offset + 50 * (i + 1) := by ring
      simpa [parseSTLLoop, harith] using ih (offset + 50) i (by omega)

/-- C7.  `parseSTL` decodes `min(declared_count, 25000)` fixed 50-byte
records in file order (record `i` at byte offset `84 + 50 * i`); a
declared count of 30000 yields exactly 25000 decoded triangles. -/
theorem parseSTL_decodes (view : DataView) :
    (parseSTL view).length = min (view.getUint32 80) 25000 ∧
    (∀ i : ℕ, i < min (view.getUint32 80) 25000 →
      (parseSTL view)[i]? = some (readTriangle view (84 + 50 * i))) ∧
    (view.getUint32 80 = 30000 → (parseSTL view).length = 25000) := by
  refine ⟨parseSTLLoop_length view _ 84,
    fun i hi => parseSTLLoop_get view _ 84 i hi, fun hd => ?_⟩
  rw [parseSTL, hd, parseSTLLoop_length view _ 84]
  norm_num

/-- While every step stays within `maxZ`, the Z loop lists exactly the
arithmetic progression. -/
lemma zLoop_eq_map (maxZ h : ℚ) (n : ℕ) :
    ∀ z : ℚ, (∀ i : ℕ, i < n → z + i * h ≤ maxZ) →
      zLoop maxZ h z n = (List.range n).map fun i : ℕ => z + (i : ℚ) * h := by
  induction n with
  | zero => intro z _; rfl
  | succ n ih =>
    intro z hb
    have h0 : z ≤ maxZ := by simpa using hb 0 (Nat.succ_pos n)
    have hrec := ih (z + h) (fun i hi => by
      have hb2 := hb (i + 1) (by omega)
      push_cast at hb2 ⊢
      linarith)
    rw [zLoop, if_pos h0, hrec, List.range_succ_eq_map, List.map_cons, List.map_map]
    simp only [Nat.cast_zero, zero_mul, add_zero]
    congr 1
    apply List.map_congr_left
    intro i _
    simp only [Function.comp_apply]
    push_cast
    ring

/-- When the start value already exceeds `maxZ` the Z loop is empty for
every fuel (the first guard fails). -/
lemma zLoop_nil (maxZ h z : ℚ) (hz : maxZ < z) (fuel : ℕ) : zLoop maxZ h z fuel = [] := by
  cases fuel with
  | zero => rfl
  | succ n => rw [zLoop, if_neg (not_le.2 hz)]

/-- Every index below the chosen iteration count steps to a height within
`maxZ` (this is what makes the fuel of `layerZList` exact). -/
lemma layerZList_bound (minZ maxZ h : ℚ) (hh : 0 < h) (i : ℕ)
    (hi : i < (⌊(maxZ - (minZ + 1 / 5)) / h⌋ + 1).toNat) :
    minZ + 1 / 5 + i * h ≤ maxZ := by
  have h1 : (i : ℤ) < ⌊(maxZ - (minZ + 1 / 5)) / h⌋ + 1 := by
    exact_mod_cast Int.lt_toNat.mp (by exact_mod_cast hi)
  have h2 : (i : ℤ) ≤ ⌊(maxZ - (minZ + 1 / 5)) / h⌋ := by omega
  have h3 : (i : ℚ) ≤ (maxZ - (minZ + 1 / 5)) / h := by
    exact_mod_cast Int.le_floor.1 h2
  have h4 : (i : ℚ) * h ≤ (maxZ - (minZ + 1 / 5)) / h * h :=
    mul_le_mul_of_nonneg_right h3 hh.le
  rw [div_mul_cancel₀ _ (ne_of_gt hh)] at h4
  linarith

/-- For a positive layer height, `layerZList` is exactly the arithmetic
progression from `minZ + 0.2` of length `(floor + 1).toNat`. -/
lemma layerZList_eq_map (minZ maxZ h : ℚ) (hh : 0 < h) :
    layerZList minZ maxZ h =
      (List.range (⌊(maxZ - (minZ + 1 / 5)) / h⌋ + 1).toNat).map
        fun i : ℕ => minZ + 1 / 5 + (i : ℚ) * h :=
  zLoop_eq_map maxZ h _ _ (fun i hi => layerZList_bound minZ maxZ h hh i hi)

/-- C6.  For a mesh with finite Z bounds, `layerHeight > 0` and
`minZ + 0.2 ≤ maxZ`, the slicer produces exactly
`floor ((maxZ - (minZ + 0.2)) / layerHeight) + 1` layers (the `toNat` is
exact: the count is nonnegative), at the strictly increasing heights
`minZ + 0.2 + i * layerHeight`, none exceeding `maxZ`. -/
theorem sliceLayers_count (hyp : ℚ → ℚ → ℚ) (triangles : List Triangle) (s : SlicerSettings)
    (minZ maxZ : ℚ) (hh : 0 < s.layerHeight) (hle : minZ + 1 / 5 ≤ maxZ) :
    (sliceLayers hyp triangles s minZ maxZ).length =
      (⌊(maxZ - (minZ + 1 / 5)) / s.layerHeight⌋ + 1).toNat ∧
    ((⌊(maxZ - (minZ + 1 / 5)) / s.layerHeight⌋ + 1).toNat : ℤ) =
      ⌊(maxZ - (minZ + 1 / 5)) / s.layerHeight⌋ + 1 ∧
    layerZList minZ maxZ s.layerHeight =
      (List.range (⌊(maxZ - (minZ + 1 / 5)) / s.layerHeight⌋ + 1).toNat).map
        (fun i : ℕ => minZ + 1 / 5 + (i : ℚ) * s.layerHeight) ∧
    List.Pairwise (· < ·) (layerZList minZ maxZ s.layerHeight) ∧
    ∀ zl ∈ layerZList minZ maxZ s.layerHeight, minZ + 1 / 5 ≤ zl ∧ zl ≤ maxZ := by
  have hmap := layerZList_eq_map minZ maxZ s.layerHeight hh
  refine ⟨?_, ?_, hmap, ?_, ?_⟩
  · simp [sliceLayers, hmap]
  · have hD : 0 ≤ (maxZ - (minZ + 1 / 5)) / s.layerHeight := div_nonneg (by linarith) hh.le
    have h0 : 0 ≤ ⌊(maxZ - (minZ + 1 / 5)) / s.layerHeight⌋ := Int.floor_nonneg.2 hD
    omega
  · rw [hmap]
    refine List.Pairwise.map _ (fun a b hab => ?_) (List.pairwise_lt_range _)
    have hcast : (a : ℚ) < b := by exact_mod_cast hab
    have := mul_lt_mul_of_pos_right hcast hh
    linarith
  · intro zl hzl
    rw [hmap] at hzl
    rcases List.mem_map.1 hzl with ⟨i, hi, rfl⟩
    refine ⟨?_, layerZList_bound minZ maxZ s.layerHeight hh i (List.mem_range.1 hi)⟩
    have hnn : (0 : ℚ) ≤ (i : ℚ) * s.layerHeight := mul_nonneg (by positivity) hh.le
    linarith

/-- A concrete stand-in for `Math.hypot` used by the witnesses (any
function works; the theorems are parametric in it). -/
def demoHyp : ℚ → ℚ → ℚ := fun a b => |a| + |b|

/-- Concrete settings used by the witnesses. -/
def demoSettings : SlicerSettings := ⟨7 / 4, 2 / 5, 2 / 5, 200, 3000, 1200⟩

/-- Witness for C6: bounds 0..1 with layer height 0.4 give exactly
`floor (0.8 / 0.4) + 1 = 3` layers at heights 0.2, 0.6, 1.0. -/
theorem sliceLayers_count_witness :
    (sliceLayers demoHyp [] demoSettings 0 1).length = 3 ∧
    layerZList 0 1 (2 / 5) = [1 / 5, 3 / 5, 1] := by
  have H := sliceLayers_count demoHyp [] demoSettings 0 1
    (by norm_num [demoSettings]) (by norm_num)
  refine ⟨?_, by norm_num [layerZList, zLoop]⟩
  rw [H.1]
  norm_num [demoSettings]
  rfl

/-- The grow loop only ever appends to the loop, so the loop's length is
monotone. -/
lemma growLoop_loop_le (hyp : ℚ → ℚ → ℚ) :
    ∀ (fuel : ℕ) (loop : List Position) (pool : List Segment),
      loop.length ≤ (growLoop hyp fuel loop pool).1.length := by
  intro fuel
  induction fuel with
  | zero => intro loop pool; exact le_refl _
  | succ n ih =>
    intro loop pool
    simp only [growLoop]
    rcases findMatch (fun seg => near hyp EPSILON seg.start (loop.getLastD ⟨0, 0, 0⟩) ||
        near hyp EPSILON seg.endPt (loop.getLastD ⟨0, 0, 0⟩)) pool with _ | ⟨nextSeg, rest⟩
    · exact le_refl _
    · exact le_trans (by simp) (ih (loop ++ [_]) rest)

/-- After the closure step, a loop whose head and last point pass the
`2 * EPSILON` check has its last point equal to its head: either the check
passed and the last point was overwritten by the head, or the check failed
and the hypothesis is contradictory. -/
lemma closeLoop_snap (hyp : ℚ → ℚ → ℚ) (l : List Position) (hl : 2 ≤ l.length) :
    near hyp (EPSILON * 2) ((closeLoop hyp l).headD ⟨0, 0, 0⟩)
        ((closeLoop hyp l).getLastD ⟨0, 0, 0⟩) = true →
      (closeLoop hyp l).getLastD ⟨0, 0, 0⟩ = (closeLoop hyp l).headD ⟨0, 0, 0⟩ := by
  rcases l with _ | ⟨a, l1⟩
  · simp at hl
  rcases l1 with _ | ⟨b, t⟩
  · simp at hl
  by_cases hnear : near hyp (EPSILON * 2) ((a :: b :: t).headD ⟨0, 0, 0⟩)
      ((a :: b :: t).getLastD ⟨0, 0, 0⟩) = true
  · intro _
    simp only [closeLoop, hnear, if_true]
    have hd2 : (a :: b :: t).dropLast ++ [(a :: b :: t).headD ⟨0, 0, 0⟩] =
        (a :: (b :: t).dropLast) ++ [a] := rfl
    rw [hd2, List.getLastD_concat]
    rfl
  · intro hx
    simp only [closeLoop, hnear, if_false] at hx ⊢
    · exact absurd hx hnear

/-- Invariant of the outer stitching loop: every accumulated loop has more
than 2 points and satisfies the snap property. -/
lemma chainLoop_closed (hyp : ℚ → ℚ → ℚ) :
    ∀ (fuel : ℕ) (pool : List Segment) (acc : List (List Position)),
      (∀ l ∈ acc, 2 < l.length ∧
        (near hyp (EPSILON * 2) (l.headD ⟨0, 0, 0⟩) (l.getLastD ⟨0, 0, 0⟩) = true →
          l.getLastD ⟨0, 0, 0⟩ = l.headD ⟨0, 0, 0⟩)) →
      ∀ l ∈ chainLoop hyp fuel pool acc, 2 < l.length ∧
        (near hyp (EPSILON * 2) (l.headD ⟨0, 0, 0⟩) (l.getLastD ⟨0, 0, 0⟩) = true →
          l.getLastD ⟨0, 0, 0⟩ = l.headD ⟨0, 0, 0⟩) := by
  intro fuel
  induction fuel with
  | zero => intro pool acc hacc; simpa [chainLoop] using hacc
  | succ n ih =>
    intro pool acc hacc
    simp only [chainLoop]
    rcases pool.getLast? with _ | firstSeg
    · exact hacc
    · apply ih
      intro l hl
      set grown := growLoop hyp pool.dropLast.length [firstSeg.start, firstSeg.endPt]
        pool.dropLast with hgrown
      by_cases hlen : 2 < (closeLoop hyp grown.1).length
      · rw [if_pos hlen] at hl
        rcases List.mem_append.1 hl with hmem | hmem
        · exact hacc l hmem
        · rcases List.mem_singleton.1 hmem with rfl
          have h2 : 2 ≤ grown.1.length := by
            have hg := growLoop_loop_le hyp pool.dropLast.length
              [firstSeg.start, firstSeg.endPt] pool.dropLast
            simpa [hgrown] using hg
          exact ⟨hlen, closeLoop_snap hyp grown.1 h2⟩
      · rw [if_neg hlen] at hl
        exact hacc l hl

/-- A grown loop whose first and last points pass the `2 * EPSILON` check
is snapped exactly closed by the closure step, and its first point is
preserved. -/
lemma closeLoop_snap_pre (hyp : ℚ → ℚ → ℚ) :
    ∀ l : List Position, 2 ≤ l.length →
      near hyp (EPSILON * 2) (l.headD ⟨0, 0, 0⟩) (l.getLastD ⟨0, 0, 0⟩) = true →
      (closeLoop hyp l).getLastD ⟨0, 0, 0⟩ = l.headD ⟨0, 0, 0⟩ ∧
      (closeLoop hyp l).headD ⟨0, 0, 0⟩ = l.headD ⟨0, 0, 0⟩ := by
  intro l hl hnear
  rcases l with _ | ⟨a, l1⟩
  · simp at hl
  rcases l1 with _ | ⟨b, t⟩
  · simp at hl
  constructor
  · simp only [closeLoop, hnear, if_true]
    have hd2 : (a :: b :: t).dropLast ++ [(a :: b :: t).headD ⟨0, 0, 0⟩] =
        (a :: (b :: t).dropLast) ++ [a] := rfl
    rw [hd2, List.getLastD_concat]
    rfl
  · simp only [closeLoop, hnear, if_true]
    rfl

/-- C4.  Every loop returned by `chainSegments` has more than 2 points,
and closure is enforced both ways: a grown loop whose first and last
points lie within `2 * EPSILON` has its last point snapped exactly equal
to its first by the closure step, and consequently any returned loop
whose first and last points pass the `2 * EPSILON` check has its last
point exactly equal to its first. -/
theorem chainSegments_loops (hyp : ℚ → ℚ → ℚ) (segments : List Segment) :
    (∀ loop ∈ chainSegments hyp segments,
      2 < loop.length ∧
      (near hyp (EPSILON * 2) (loop.headD ⟨0, 0, 0⟩) (loop.getLastD ⟨0, 0, 0⟩) = true →
        loop.getLastD ⟨0, 0, 0⟩ = loop.headD ⟨0, 0, 0⟩)) ∧
    (∀ l : List Position, 2 ≤ l.length →
      near hyp (EPSILON * 2) (l.headD ⟨0, 0, 0⟩) (l.getLastD ⟨0, 0, 0⟩) = true →
      (closeLoop hyp l).getLastD ⟨0, 0, 0⟩ = l.headD ⟨0, 0, 0⟩ ∧
      (closeLoop hyp l).headD ⟨0, 0, 0⟩ = l.headD ⟨0, 0, 0⟩) :=
  ⟨chainLoop_closed hyp segments.length segments [] (by simp), closeLoop_snap_pre hyp⟩

/-- The witness segment soup: the four edges of a unit square at Z = 0,
listed in order. -/
def squareSegs : List Segment :=
  [⟨⟨0, 0, 0⟩, ⟨1, 0, 0⟩⟩, ⟨⟨1, 0, 0⟩, ⟨1, 1, 0⟩⟩,
   ⟨⟨1, 1, 0⟩, ⟨0, 1, 0⟩⟩, ⟨⟨0, 1, 0⟩, ⟨0, 0, 0⟩⟩]

/-- Witness for C4: stitching the unit square's edges yields one loop of 5
points that is snapped exactly closed. -/
theorem chainSegments_loops_witness :
    [(⟨0, 1, 0⟩ : Position), ⟨0, 0, 0⟩, ⟨1, 0, 0⟩, ⟨1, 1, 0⟩, ⟨0, 1, 0⟩] ∈
      chainSegments demoHyp squareSegs ∧
    2 < ([(⟨0, 1, 0⟩ : Position), ⟨0, 0, 0⟩, ⟨1, 0, 0⟩, ⟨1, 1, 0⟩, ⟨0, 1, 0⟩]).length ∧
    (near demoHyp (EPSILON * 2)
        (([(⟨0, 1, 0⟩ : Position), ⟨0, 0, 0⟩, ⟨1, 0, 0⟩, ⟨1, 1, 0⟩, ⟨0, 1, 0⟩]).headD ⟨0, 0, 0⟩)
        (([(⟨0, 1, 0⟩ : Position), ⟨0, 0, 0⟩, ⟨1, 0, 0⟩, ⟨1, 1, 0⟩,
          ⟨0, 1, 0⟩]).getLastD ⟨0, 0, 0⟩) = true →
      ([(⟨0, 1, 0⟩ : Position), ⟨0, 0, 0⟩, ⟨1, 0, 0⟩, ⟨1, 1, 0⟩,
        ⟨0, 1, 0⟩]).getLastD ⟨0, 0, 0⟩ =
      ([(⟨0, 1, 0⟩ : Position), ⟨0, 0, 0⟩, ⟨1, 0, 0⟩, ⟨1, 1, 0⟩, ⟨0, 1, 0⟩]).headD ⟨0, 0, 0⟩) := by
  have hev : chainSegments demoHyp squareSegs =
      [[⟨0, 1, 0⟩, ⟨0, 0, 0⟩, ⟨1, 0, 0⟩, ⟨1, 1, 0⟩, ⟨0, 1, 0⟩]] := by
    norm_num [chainSegments, chainLoop, growLoop, findMatch, closeLoop, near, EPSILON, demoHyp,
      squareSegs, List.getLast?, List.getLastD, List.dropLast, List.getLast]
  have hmem : [(⟨0, 1, 0⟩ : Position), ⟨0, 0, 0⟩, ⟨1, 0, 0⟩, ⟨1, 1, 0⟩, ⟨0, 1, 0⟩] ∈
      chainSegments demoHyp squareSegs := by
    rw [hev]
    exact List.mem_singleton_self _
  exact ⟨hmem, (chainSegments_loops demoHyp squareSegs).1 _ hmem⟩

/-- C8.  When the transformed Z bounds satisfy `minZ + 0.2 > maxZ`, the
slicer produces zero layers and the output is exactly the preamble
followed by the postamble, with zero totals and no visualization
points. -/
theorem sliceMesh_no_layers (hyp : ℚ → ℚ → ℚ) (rawTriangles : List Triangle)
    (transform : ModelTransform) (s : SlicerSettings) (minZ maxZ : ℚ)
    (hb : getZBounds (rawTriangles.map fun tri => applyTransform tri transform) =
      (some minZ, some maxZ))
    (hgt : maxZ < minZ + 1 / 5) :
    sliceLayers hyp (rawTriangles.map fun tri => applyTransform tri transform) s minZ maxZ
      = [] ∧
    sliceMesh hyp rawTriangles transform s = ⟨[], preamble s ++ postamble, 0, 0⟩ := by
  have hz : layerZList minZ maxZ s.layerHeight = [] :=
    zLoop_nil maxZ s.layerHeight (minZ + 1 / 5) hgt _
  have hsl : sliceLayers hyp (rawTriangles.map fun tri => applyTransform tri transform)
      s minZ maxZ = [] := by
    simp [sliceLayers, hz]
  refine ⟨hsl, ?_⟩
  simp only [sliceMesh, hb, hsl]
  rfl

/-- The degenerate mesh of the C8 witness: one triangle lying flat at
Z = 0, so that the transformed bounds are `(0, 0)` and `0 + 0.2 > 0`. -/
def flatTriangle : Triangle := ⟨⟨0, 0, 0⟩, ⟨1, 0, 0⟩, ⟨0, 1, 0⟩, ⟨0, 0, 1⟩⟩

/-- Witness for C8: slicing the flat triangle under the identity transform
emits only preamble and postamble with zero totals. -/
theorem sliceMesh_no_layers_witness :
    sliceMesh demoHyp [flatTriangle] ⟨0, 0, 0, 1, 0⟩ demoSettings =
      ⟨[], preamble demoSettings ++ postamble, 0, 0⟩ :=
  (sliceMesh_no_layers demoHyp [flatTriangle] ⟨0, 0, 0, 1, 0⟩ demoSettings 0 0
    (by norm_num [getZBounds, applyTransform, flatTriangle, omin, omax])
    (by norm_num)).2

/-- A fold whose step never decreases the running totals never decreases
them overall. -/
lemma foldl_totals_le {α : Type} (f : EmitState → α → EmitState)
    (hmono : ∀ (st : EmitState) (a : α),
      st.totalFilament ≤ (f st a).totalFilament ∧ st.totalTime ≤ (f st a).totalTime) :
    ∀ (l : List α) (st : EmitState),
      st.totalFilament ≤ (l.foldl f st).totalFilament ∧
      st.totalTime ≤ (l.foldl f st).totalTime := by
  intro l
  induction l with
  | nil => intro st; exact ⟨le_refl _, le_refl _⟩
  | cons a l ih =>
    intro st
    exact ⟨le_trans (hmono st a).1 (ih (f st a)).1, le_trans (hmono st a).2 (ih (f st a)).2⟩

/-- The extrusion constant is nonnegative for nonnegative nozzle diameter
and layer height (the filament area is a product of `mathPI > 0` and a
square). -/
lemma extrusionPerMM_nonneg (s : SlicerSettings) (hnz : 0 ≤ s.nozzleDiameter)
    (hlh : 0 ≤ s.layerHeight) : 0 ≤ extrusionPerMM s := by
  have hpi : (0 : ℚ) ≤ mathPI := by norm_num [mathPI]
  exact div_nonneg (mul_nonneg hnz hlh) (mul_nonneg hpi (sq_nonneg _))

/-- One extruding move adds a nonnegative amount to both totals. -/
lemma extrudeStep_totals (hyp : ℚ → ℚ → ℚ) (s : SlicerSettings)
    (hhyp : ∀ a b, 0 ≤ hyp a b) (hps : 0 ≤ s.printSpeed)
    (hnz : 0 ≤ s.nozzleDiameter) (hlh : 0 ≤ s.layerHeight)
    (layerZ : ℚ) (st : EmitState) (p : Position) :
    st.totalFilament ≤ (extrudeStep hyp s layerZ st p).totalFilament ∧
    st.totalTime ≤ (extrudeStep hyp s layerZ st p).totalTime := by
  constructor
  · have hx : 0 ≤ hyp (p.x - st.currentPos.x) (p.y - st.currentPos.y) * extrusionPerMM s :=
      mul_nonneg (hhyp _ _) (extrusionPerMM_nonneg s hnz hlh)
    simp only [extrudeStep]
    linarith
  · have hx : 0 ≤ hyp (p.x - st.currentPos.x) (p.y - st.currentPos.y) / s.printSpeed * 60 :=
      mul_nonneg (div_nonneg (hhyp _ _) hps) (by norm_num)
    simp only [extrudeStep]
    linarith

/-- One loop adds a nonnegative amount to both totals. -/
lemma loopStep_totals (hyp : ℚ → ℚ → ℚ) (s : SlicerSettings)
    (hhyp : ∀ a b, 0 ≤ hyp a b) (hts : 0 ≤ s.travelSpeed) (hps : 0 ≤ s.printSpeed)
    (hnz : 0 ≤ s.nozzleDiameter) (hlh : 0 ≤ s.layerHeight)
    (layerZ : ℚ) (st : EmitState) (loop : List Position) :
    st.totalFilament ≤ (loopStep hyp s layerZ st loop).totalFilament ∧
    st.totalTime ≤ (loopStep hyp s layerZ st loop).totalTime := by
  simp only [loopStep]
  by_cases hlen : loop.length < 2
  · rw [if_pos hlen]
    exact ⟨le_refl _, le_refl _⟩
  rw [if_neg hlen]
  have hfold := foldl_totals_le (extrudeStep hyp s layerZ)
    (extrudeStep_totals hyp s hhyp hps hnz hlh layerZ) (loop.drop 1)
  have hadd : 0 ≤ hyp ((loop.headD ⟨0, 0, 0⟩).x - st.currentPos.x)
      ((loop.headD ⟨0, 0, 0⟩).y - st.currentPos.y) / s.travelSpeed * 60 :=
    mul_nonneg (div_nonneg (hhyp _ _) hts) (by norm_num)
  by_cases htr : 1 / 20 <
      hyp ((loop.headD ⟨0, 0, 0⟩).x - st.currentPos.x) ((loop.headD ⟨0, 0, 0⟩).y - st.currentPos.y)
  · rw [if_pos htr]
    refine ⟨le_trans ?_ (hfold _).1, le_trans ?_ (hfold _).2⟩
    · simp
    · simp only [EmitState.totalTime]
      linarith
  · rw [if_neg htr]
    exact hfold st

/-- One layer adds a nonnegative amount to both totals. -/
lemma layerStep_totals (hyp : ℚ → ℚ → ℚ) (s : SlicerSettings)
    (hhyp : ∀ a b, 0 ≤ hyp a b) (hts : 0 ≤ s.travelSpeed) (hps : 0 ≤ s.printSpeed)
    (hnz : 0 ≤ s.nozzleDiameter) (hlh : 0 ≤ s.layerHeight)
    (minZ : ℚ) (st : EmitState) (il : ℕ × List (List Position)) :
    st.totalFilament ≤ (layerStep hyp s minZ st il).totalFilament ∧
    st.totalTime ≤ (layerStep hyp s minZ st il).totalTime := by
  rw [layerStep]
  by_cases hemp : il.2 = []
  · rw [if_pos hemp]
    exact ⟨le_refl _, le_refl _⟩
  rw [if_neg hemp]
  have hfold := foldl_totals_le (loopStep hyp s (minZ + 1 / 5 + il.1 * s.layerHeight))
    (loopStep_totals hyp s hhyp hts hps hnz hlh _) il.2
  rcases hfold _ with ⟨h1, h2⟩
  have hadd : 0 ≤ |minZ + 1 / 5 + il.1 * s.layerHeight - st.currentPos.z| / s.travelSpeed * 60 :=
    mul_nonneg (div_nonneg (abs_nonneg _) hts) (by norm_num)
  constructor
  · exact h1
  · refine le_trans ?_ h2
    simp only []
    linarith

/-- C9.  The running totals are monotonically non-decreasing: every
extruding move, every loop, every layer and the whole emission pass add a
nonnegative amount to `totalFilament` and to `totalTime` (for a
nonnegative `Math.hypot` model and nonnegative speed and geometry
settings). -/
theorem emit_totals_monotone (hyp : ℚ → ℚ → ℚ) (s : SlicerSettings)
    (hhyp : ∀ a b, 0 ≤ hyp a b) (hts : 0 ≤ s.travelSpeed) (hps : 0 ≤ s.printSpeed)
    (hnz : 0 ≤ s.nozzleDiameter) (hlh : 0 ≤ s.layerHeight) :
    (∀ (layerZ : ℚ) (st : EmitState) (p : Position),
      st.totalFilament ≤ (extrudeStep hyp s layerZ st p).totalFilament ∧
      st.totalTime ≤ (extrudeStep hyp s layerZ st p).totalTime) ∧
    (∀ (layerZ : ℚ) (st : EmitState) (loop : List Position),
      st.totalFilament ≤ (loopStep hyp s layerZ st loop).totalFilament ∧
      st.totalTime ≤ (loopStep hyp s layerZ st loop).totalTime) ∧
    (∀ (minZ : ℚ) (st : EmitState) (il : ℕ × List (List Position)),
      st.totalFilament ≤ (layerStep hyp s minZ st il).totalFilament ∧
      st.totalTime ≤ (layerStep hyp s minZ st il).totalTime) ∧
    (∀ (minZ : ℚ) (layers : List (List (List Position))) (st : EmitState),
      st.totalFilament ≤ (emitLayers hyp s minZ layers st).totalFilament ∧
      st.totalTime ≤ (emitLayers hyp s minZ layers st).totalTime) := by
  refine ⟨extrudeStep_totals hyp s hhyp hps hnz hlh,
    loopStep_totals hyp s hhyp hts hps hnz hlh,
    layerStep_totals hyp s hhyp hts hps hnz hlh,
    fun minZ layers st => ?_⟩
  exact foldl_totals_le (layerStep hyp s minZ)
    (layerStep_totals hyp s hhyp hts hps hnz hlh minZ) layers.enum st

/-- Witness for C9: the totals after emitting one two-point loop are at
least the initial totals. -/
theorem emit_totals_monotone_witness :
    (initialState demoSettings).totalFilament ≤
      (emitLayers demoHyp demoSettings 0 [[[⟨0, 0, 0⟩, ⟨3, 4, 0⟩]]]
        (initialState demoSettings)).totalFilament ∧
    (initialState demoSettings).totalTime ≤
      (emitLayers demoHyp demoSettings 0 [[[⟨0, 0, 0⟩, ⟨3, 4, 0⟩]]]
        (initialState demoSettings)).totalTime :=
  (emit_totals_monotone demoHyp demoSettings
    (fun a b => add_nonneg (abs_nonneg a) (abs_nonneg b))
    (by norm_num [demoSettings]) (by norm_num [demoSettings])
    (by norm_num [demoSettings]) (by norm_num [demoSettings])).2.2.2 0
    [[[⟨0, 0, 0⟩, ⟨3, 4, 0⟩]]] (initialState demoSettings)

/-- Whether a line is an extruding move (`G1 X.. Y.. E.. F..`). -/
def isExtrudeLine : GLine → Bool
  | GLine.g1xye _ _ _ _ => true
  | _ => false

/-- The extrusion fold only appends extruding lines, and exactly one line
and one visualization point per processed point. -/
lemma extrudeFold_append (hyp : ℚ → ℚ → ℚ) (s : SlicerSettings) (layerZ : ℚ) :
    ∀ (ps : List Position) (st : EmitState),
      ∃ newLines : List GLine, ∃ newVis : List Position,
        (ps.foldl (extrudeStep hyp s layerZ) st).lines = st.lines ++ newLines ∧
        (ps.foldl (extrudeStep hyp s layerZ) st).visual = st.visual ++ newVis ∧
        newLines.length = ps.length ∧ newVis.length = ps.length ∧
        ∀ l ∈ newLines, isExtrudeLine l = true := by
  intro ps
  induction ps with
  | nil => intro st; exact ⟨[], [], by simp, by simp, rfl, rfl, by simp⟩
  | cons p ps ih =>
    intro st
    rcases ih (extrudeStep hyp s layerZ st p) with ⟨nl, nv, h1, h2, h3, h4, h5⟩
    refine ⟨GLine.g1xye p.x p.y
        (st.totalFilament + hyp (p.x - st.currentPos.x) (p.y - st.currentPos.y) *
          extrusionPerMM s) s.printSpeed :: nl,
      ⟨p.x, p.y, layerZ⟩ :: nv, ?_, ?_, by simp [h3], by simp [h4], ?_⟩
    · rw [List.foldl_cons, h1]
      simp [extrudeStep]
    · rw [List.foldl_cons, h2]
      simp [extrudeStep]
    · intro l hl
      rcases List.mem_cons.1 hl with rfl | hl
      · rfl
      · exact h5 l hl

/-- C10.  A loop whose first point is within 0.05 mm of the current tool
position emits no travel move and no visualization point for reaching it
and leaves the tool position untouched: the loop step is exactly the
extrusion fold started from the unchanged state, every emitted line is an
extruding move, and the first one measures its distance (and so its
extrusion and time) from the previous tool position, not from the loop's
first point. -/
theorem loopStep_skip_travel (hyp : ℚ → ℚ → ℚ) (s : SlicerSettings) (layerZ : ℚ)
    (st : EmitState) (loop : List Position) (p0 p1 : Position) (rest : List Position)
    (hloop : loop = p0 :: p1 :: rest)
    (hnear : ¬ (1 / 20 < hyp (p0.x - st.currentPos.x) (p0.y - st.currentPos.y))) :
    loopStep hyp s layerZ st loop = (p1 :: rest).foldl (extrudeStep hyp s layerZ) st ∧
    (∃ newLines : List GLine, ∃ newVis : List Position,
      (loopStep hyp s layerZ st loop).lines = st.lines ++ newLines ∧
      (loopStep hyp s layerZ st loop).visual = st.visual ++ newVis ∧
      newLines.length = loop.length - 1 ∧
      newVis.length = loop.length - 1 ∧
      (∀ l ∈ newLines, isExtrudeLine l = true) ∧
      newLines.headD GLine.g28 =
        GLine.g1xye p1.x p1.y
          (st.totalFilament +
            hyp (p1.x - st.currentPos.x) (p1.y - st.currentPos.y) * extrusionPerMM s)
          s.printSpeed) := by
  subst hloop
  have heq : loopStep hyp s layerZ st (p0 :: p1 :: rest) =
      (p1 :: rest).foldl (extrudeStep hyp s layerZ) st := by
    simp only [loopStep, List.headD_cons]
    rw [if_neg (by simp only [List.length_cons]; omega), if_neg hnear]
    rfl
  rcases extrudeFold_append hyp s layerZ rest (extrudeStep hyp s layerZ st p1) with
    ⟨nl, nv, h1, h2, h3, h4, h5⟩
  refine ⟨heq, GLine.g1xye p1.x p1.y
      (st.totalFilament + hyp (p1.x - st.currentPos.x) (p1.y - st.currentPos.y) *
        extrusionPerMM s) s.printSpeed :: nl,
    ⟨p1.x, p1.y, layerZ⟩ :: nv, ?_, ?_, ?_, ?_, ?_, rfl⟩
  · rw [heq, List.foldl_cons, h1]
    simp [extrudeStep]
  · rw [heq, List.foldl_cons, h2]
    simp [extrudeStep]
  · simp only [List.length_cons, h3]
    omega
  · simp only [List.length_cons, h4]
    omega
  · intro l hl
    rcases List.mem_cons.1 hl with rfl | hl
    · rfl
    · exact h5 l hl

/-- Witness for C10: a loop starting exactly at the tool position (origin)
triggers no travel move; the whole loop step is the extrusion fold from
the untouched initial state. -/
theorem loopStep_skip_travel_witness :
    loopStep demoHyp demoSettings (1 / 5) (initialState demoSettings)
        [⟨0, 0, 0⟩, ⟨3, 4, 0⟩] =
      [(⟨3, 4, 0⟩ : Position)].foldl (extrudeStep demoHyp demoSettings (1 / 5))
        (initialState demoSettings) ∧
    (∃ newLines : List GLine, ∃ newVis : List Position,
      (loopStep demoHyp demoSettings (1 / 5) (initialState demoSettings)
          [⟨0, 0, 0⟩, ⟨3, 4, 0⟩]).lines = (initialState demoSettings).lines ++ newLines ∧
      (loopStep demoHyp demoSettings (1 / 5) (initialState demoSettings)
          [⟨0, 0, 0⟩, ⟨3, 4, 0⟩]).visual = (initialState demoSettings).visual ++ newVis ∧
      newLines.length = ([(⟨0, 0, 0⟩ : Position), ⟨3, 4, 0⟩]).length - 1 ∧
      newVis.length = ([(⟨0, 0, 0⟩ : Position), ⟨3, 4, 0⟩]).length - 1 ∧
      (∀ l ∈ newLines, isExtrudeLine l = true) ∧
      newLines.headD GLine.g28 =
        GLine.g1xye (3 : ℚ) (4 : ℚ)
          ((initialState demoSettings).totalFilament +
            demoHyp ((3 : ℚ) - (initialState demoSettings).currentPos.x)
              ((4 : ℚ) - (initialState demoSettings).currentPos.y) *
              extrusionPerMM demoSettings)
          demoSettings.printSpeed) :=
  loopStep_skip_travel demoHyp demoSettings (1 / 5) (initialState demoSettings)
    [⟨0, 0, 0⟩, ⟨3, 4, 0⟩] ⟨0, 0, 0⟩ ⟨3, 4, 0⟩ [] rfl
    (by norm_num [demoHyp, initialState])

/-! ## IEEE-special-value model of the plane intersection

The claim about non-finite coordinates cannot be stated over plain `ℚ`, so
`intersectTriangleZ` is modelled a second time over `FVal`: exact rational
finite values extended with the IEEE-754 specials `+Infinity`,
`-Infinity` and `NaN`, with arithmetic and comparisons following the IEEE
rules (division by zero yields an infinity, `0 / 0` yields `NaN`, every
comparison with `NaN` is false; rounding and overflow are not modelled,
and the zero is unsigned, taken as `+0` when divided by). -/

inductive FVal where
  | fin : ℚ → FVal
  | pinf : FVal
  | ninf : FVal
  | nan : FVal
  deriving DecidableEq, Repr

/-- Finiteness, JavaScript's `Number.isFinite`. -/
def FVal.isFinite : FVal → Bool
  | FVal.fin _ => true
  | _ => false

/-- IEEE negation. -/
def FVal.neg : FVal → FVal
  | FVal.fin a => FVal.fin (-a)
  | FVal.pinf => FVal.ninf
  | FVal.ninf => FVal.pinf
  | FVal.nan => FVal.nan

/-- IEEE addition (the match rows are ordered; earlier rows win). -/
def FVal.add : FVal → FVal → FVal
  | FVal.nan, _ => FVal.nan
  | _, FVal.nan => FVal.nan
  | FVal.pinf, FVal.ninf => FVal.nan
  | FVal.ninf, FVal.pinf => FVal.nan
  | FVal.pinf, _ => FVal.pinf
  | _, FVal.pinf => FVal.pinf
  | FVal.ninf, _ => FVal.ninf
  | _, FVal.ninf => FVal.ninf
  | FVal.fin a, FVal.fin b => FVal.fin (a + b)

/-- IEEE subtraction, as addition of the negation. -/
def FVal.sub (a b : FVal) : FVal := a.add b.neg

/-- IEEE multiplication. -/
def FVal.mul : FVal → FVal → FVal
  | FVal.nan, _ => FVal.nan
  | _, FVal.nan => FVal.nan
  | FVal.fin a, FVal.fin b => FVal.fin (a * b)
  | FVal.pinf, FVal.pinf => FVal.pinf
  | FVal.pinf, FVal.ninf => FVal.ninf
  | FVal.ninf, FVal.pinf => FVal.ninf
  | FVal.ninf, FVal.ninf => FVal.pinf
  | FVal.pinf, FVal.fin b =>
    if b = 0 then FVal.nan else if 0 < b then FVal.pinf else FVal.ninf
  | FVal.fin a, FVal.pinf =>
    if a = 0 then FVal.nan else if 0 < a then FVal.pinf else FVal.ninf
  | FVal.ninf, FVal.fin b =>
    if b = 0 then FVal.nan else if 0 < b then FVal.ninf else FVal.pinf
  | FVal.fin a, FVal.ninf =>
    if a = 0 then FVal.nan else if 0 < a then FVal.ninf else FVal.pinf

/-- IEEE division (zero treated as `+0` when divided by). -/
def FVal.div : FVal → FVal → FVal
  | FVal.nan, _ => FVal.nan
  | _, FVal.nan => FVal.nan
  | FVal.fin a, FVal.fin b =>
    if b = 0 then (if a = 0 then FVal.nan else if 0 < a then FVal.pinf else FVal.ninf)
    else FVal.fin (a / b)
  | FVal.fin _, FVal.pinf => FVal.fin 0
  | FVal.fin _, FVal.ninf => FVal.fin 0
  | FVal.pinf, FVal.fin b => if 0 ≤ b then FVal.pinf else FVal.ninf
  | FVal.ninf, FVal.fin b => if 0 ≤ b then FVal.ninf else FVal.pinf
  | FVal.pinf, FVal.pinf => FVal.nan
  | FVal.pinf, FVal.ninf => FVal.nan
  | FVal.ninf, FVal.pinf => FVal.nan
  | FVal.ninf, FVal.ninf => FVal.nan

/-- IEEE `a <= b` (false whenever one side is `NaN`). -/
def FVal.leb : FVal → FVal → Bool
  | FVal.nan, _ => false
  | _, FVal.nan => false
  | FVal.ninf, _ => true
  | _, FVal.pinf => true
  | FVal.pinf, _ => false
  | _, FVal.ninf => false
  | FVal.fin a, FVal.fin b => decide (a ≤ b)

/-- IEEE `a < b` (false whenever one side is `NaN`). -/
def FVal.ltb : FVal → FVal → Bool
  | FVal.nan, _ => false
  | _, FVal.nan => false
  | FVal.pinf, _ => false
  | _, FVal.pinf => true
  | FVal.ninf, FVal.ninf => false
  | FVal.ninf, _ => true
  | _, FVal.ninf => false
  | FVal.fin a, FVal.fin b => decide (a < b)

/-- A 3D point over the IEEE-value model. -/
structure PositionF where
  x : FVal
  y : FVal
  z : FVal
  deriving DecidableEq, Repr

/-- A triangle over the IEEE-value model. -/
structure TriangleF where
  p1 : PositionF
  p2 : PositionF
  p3 : PositionF
  normal : PositionF
  deriving DecidableEq, Repr

/-- A segment over the IEEE-value model. -/
structure SegmentF where
  start : PositionF
  endPt : PositionF
  deriving DecidableEq, Repr

/-- `intersectEdge` over the IEEE-value model:
`t = (z - p1.z) / (p2.z - p1.z)`, X and Y interpolated, Z set to `z`. -/
def intersectEdgeF (z : FVal) (p1 p2 : PositionF) : PositionF :=
  let t := (z.sub p1.z).div (p2.z.sub p1.z)
  ⟨p1.x.add (t.mul (p2.x.sub p1.x)), p1.y.add (t.mul (p2.y.sub p1.y)), z⟩

/-- `intersectTriangleZ` over the IEEE-value model; `p.z >= z` is
`z.leb p.z` and `p.z < z` is `p.z.ltb z` (with a `NaN` coordinate both are
false and the vertex lands in neither list, as in IEEE). -/
def intersectTriangleZF (tri : TriangleF) (z : FVal) : Option SegmentF :=
  let points := [tri.p1, tri.p2, tri.p3]
  let above := points.filter fun p => FVal.leb z p.z
  let below := points.filter fun p => FVal.ltb p.z z
  if above.length = 3 ∨ below.length = 3 then none
  else
    match above, below with
    | [a], [b0, b1] => some ⟨intersectEdgeF z a b0, intersectEdgeF z a b1⟩
    | [a0, a1], [b] => some ⟨intersectEdgeF z b a0, intersectEdgeF z b a1⟩
    | _, _ => none

/-- All three coordinates of a point are finite. -/
def PositionF.finiteB (p : PositionF) : Bool :=
  p.x.isFinite && p.y.isFinite && p.z.isFinite

/-- All three vertices of a triangle have finite coordinates. -/
def TriangleF.verticesFinite (t : TriangleF) : Bool :=
  t.p1.finiteB && t.p2.finiteB && t.p3.finiteB

/-- Both endpoints of a segment have finite coordinates. -/
def SegmentF.finiteB (s : SegmentF) : Bool :=
  s.start.finiteB && s.endPt.finiteB

/-- The triangle has an edge both of whose endpoints lie exactly at the
target Z (the spec's "edge lying exactly in-plane"). -/
def TriangleF.hasEdgeAtZ (t : TriangleF) (z : FVal) : Bool :=
  (decide (t.p1.z = z) && decide (t.p2.z = z)) ||
  (decide (t.p2.z = z) && decide (t.p3.z = z)) ||
  (decide (t.p1.z = z) && decide (t.p3.z = z))

/-- A finite value is a `fin`. -/
lemma FVal.isFinite_iff (v : FVal) : v.isFinite = true ↔ ∃ q : ℚ, v = FVal.fin q := by
  cases v <;> simp [FVal.isFinite]

/-- Interpolating an edge with finite endpoints whose Z coordinates differ
produces a finite point: the denominator `p2.z - p1.z` is a nonzero
rational, so no IEEE special value ever arises. -/
lemma intersectEdgeF_finite (zq x1 y1 z1 x2 y2 z2 : ℚ) (hne : z2 ≠ z1) :
    (intersectEdgeF (FVal.fin zq) ⟨FVal.fin x1, FVal.fin y1, FVal.fin z1⟩
      ⟨FVal.fin x2, FVal.fin y2, FVal.fin z2⟩).finiteB = true := by
  have h0 : ¬ (z2 + -z1 = 0) := fun h => hne (by linarith)
  simp [intersectEdgeF, FVal.sub, FVal.neg, FVal.add, FVal.div, FVal.mul, h0,
    PositionF.finiteB, FVal.isFinite]

/-- Any segment `intersectTriangleZF` returns for a triangle with finite
coordinates and a finite target is finite: the interpolated edges always
join vertices on opposite sides of the classification, so their Z
coordinates differ and no division by zero (hence no IEEE special value)
occurs.  In particular, an edge lying exactly in the plane never gets
interpolated: both its endpoints classify as above. -/
lemma intersectTriangleZF_finite_aux :
    ∀ (tri : TriangleF) (z : FVal) (seg : SegmentF),
      tri.verticesFinite = true → z.isFinite = true →
      intersectTriangleZF tri z = some seg → seg.finiteB = true := by
  rintro ⟨⟨px1, py1, pz1⟩, ⟨px2, py2, pz2⟩, ⟨px3, py3, pz3⟩, nrm⟩ z ⟨sa, sb⟩ hfin hz heq
  rcases (FVal.isFinite_iff z).1 hz with ⟨zq, rfl⟩
  simp only [TriangleF.verticesFinite, PositionF.finiteB, Bool.and_eq_true] at hfin
  obtain ⟨⟨⟨⟨hx1, hy1⟩, hz1⟩, ⟨⟨hx2, hy2⟩, hz2⟩⟩, ⟨⟨hx3, hy3⟩, hz3⟩⟩ := hfin
  rcases (FVal.isFinite_iff _).1 hx1 with ⟨x1, rfl⟩
  rcases (FVal.isFinite_iff _).1 hy1 with ⟨y1, rfl⟩
  rcases (FVal.isFinite_iff _).1 hz1 with ⟨z1, rfl⟩
  rcases (FVal.isFinite_iff _).1 hx2 with ⟨x2, rfl⟩
  rcases (FVal.isFinite_iff _).1 hy2 with ⟨y2, rfl⟩
  rcases (FVal.isFinite_iff _).1 hz2 with ⟨z2, rfl⟩
  rcases (FVal.isFinite_iff _).1 hx3 with ⟨x3, rfl⟩
  rcases (FVal.isFinite_iff _).1 hy3 with ⟨y3, rfl⟩
  rcases (FVal.isFinite_iff _).1 hz3 with ⟨z3, rfl⟩
  rcases le_or_lt zq z1 with h1 | h1 <;> rcases le_or_lt zq z2 with h2 | h2 <;>
    rcases le_or_lt zq z3 with h3 | h3
  · simp [intersectTriangleZF, FVal.leb, FVal.ltb, h1, h2, h3,
      h1.not_lt, h2.not_lt, h3.not_lt] at heq
  · simp [intersectTriangleZF, FVal.leb, FVal.ltb, h1, h2, h3,
      h1.not_lt, h2.not_lt, h3.not_le] at heq
    rcases heq with ⟨rfl, rfl⟩
    simp [SegmentF.finiteB,
      intersectEdgeF_finite zq x3 y3 z3 x1 y1 z1 (lt_of_lt_of_le h3 h1).ne',
      intersectEdgeF_finite zq x3 y3 z3 x2 y2 z2 (lt_of_lt_of_le h3 h2).ne']
  · simp [intersectTriangleZF, FVal.leb, FVal.ltb, h1, h2, h3,
      h1.not_lt, h2.not_le, h3.not_lt] at heq
    rcases heq with ⟨rfl, rfl⟩
    simp [SegmentF.finiteB,
      intersectEdgeF_finite zq x2 y2 z2 x1 y1 z1 (lt_of_lt_of_le h2 h1).ne',
      intersectEdgeF_finite zq x2 y2 z2 x3 y3 z3 (lt_of_lt_of_le h2 h3).ne']
  · simp [intersectTriangleZF, FVal.leb, FVal.ltb, h1, h2, h3,
      h1.not_lt, h2.not_le, h3.not_le] at heq
    rcases heq with ⟨rfl, rfl⟩
    simp [SegmentF.finiteB,
      intersectEdgeF_finite zq x1 y1 z1 x2 y2 z2 (lt_of_lt_of_le h2 h1).ne,
      intersectEdgeF_finite zq x1 y1 z1 x3 y3 z3 (lt_of_lt_of_le h3 h1).ne]
  · simp [intersectTriangleZF, FVal.leb, FVal.ltb, h1, h2, h3,
      h1.not_le, h2.not_lt, h3.not_lt] at heq
    rcases heq with ⟨rfl, rfl⟩
    simp [SegmentF.finiteB,
      intersectEdgeF_finite zq x1 y1 z1 x2 y2 z2 (lt_of_lt_of_le h1 h2).ne',
      intersectEdgeF_finite zq x1 y1 z1 x3 y3 z3 (lt_of_lt_of_le h1 h3).ne']
  · simp [intersectTriangleZF, FVal.leb, FVal.ltb, h1, h2, h3,
      h1.not_le, h2.not_lt, h3.not_le] at heq
    rcases heq with ⟨rfl, rfl⟩
    simp [SegmentF.finiteB,
      intersectEdgeF_finite zq x2 y2 z2 x1 y1 z1 (lt_of_lt_of_le h1 h2).ne,
      intersectEdgeF_finite zq x2 y2 z2 x3 y3 z3 (lt_of_lt_of_le h3 h2).ne]
  · simp [intersectTriangleZF, FVal.leb, FVal.ltb, h1, h2, h3,
      h1.not_le, h2.not_le, h3.not_lt] at heq
    rcases heq with ⟨rfl, rfl⟩
    simp [SegmentF.finiteB,
      intersectEdgeF_finite zq x3 y3 z3 x1 y1 z1 (lt_of_lt_of_le h1 h3).ne,
      intersectEdgeF_finite zq x3 y3 z3 x2 y2 z2 (lt_of_lt_of_le h2 h3).ne]
  · simp [intersectTriangleZF, FVal.leb, FVal.ltb, h1, h2, h3,
      h1.not_le, h2.not_le, h3.not_le] at heq

/-- C1 counterexample.  The claimed failure does not exist: there is no
triangle with finite coordinates and an edge lying exactly at the target Z
for which `intersectTriangleZF` returns a segment with a non-finite
coordinate.  The `>=` tie-break puts both endpoints of an in-plane edge in
the above class, so that edge is never interpolated and no division by
zero occurs. -/
theorem no_nonfinite_from_inplane_edge :
    ¬ ∃ (tri : TriangleF) (z : FVal) (seg : SegmentF),
        tri.verticesFinite = true ∧ z.isFinite = true ∧ tri.hasEdgeAtZ z = true ∧
        intersectTriangleZF tri z = some seg ∧ seg.finiteB = false := by
  rintro ⟨tri, z, seg, hfin, hz, _, heq, hbad⟩
  rw [intersectTriangleZF_finite_aux tri z seg hfin hz heq] at hbad
  cases hbad

/-- C1 amended.  For every triangle with finite coordinates and every
finite target Z (in-plane edge or not), any segment `intersectTriangleZF`
returns has only finite coordinates. -/
theorem intersectTriangleZF_finite (tri : TriangleF) (z : FVal) (seg : SegmentF)
    (hfin : tri.verticesFinite = true) (hz : z.isFinite = true)
    (heq : intersectTriangleZF tri z = some seg) : seg.finiteB = true :=
  intersectTriangleZF_finite_aux tri z seg hfin hz heq

/-- The witness triangle for C1: its edge `p1 p2` lies exactly in the
plane Z = 5 and the third vertex is below. -/
def inPlaneTriangleF : TriangleF :=
  ⟨⟨FVal.fin 0, FVal.fin 0, FVal.fin 5⟩, ⟨FVal.fin 1, FVal.fin 0, FVal.fin 5⟩,
   ⟨FVal.fin 0, FVal.fin 1, FVal.fin 0⟩, ⟨FVal.fin 0, FVal.fin 0, FVal.fin 1⟩⟩

/-- Witness for the amended C1: at the in-plane-edge triangle the
intersection is computed from the two straddling edges and every
coordinate of the result is finite. -/
theorem intersectTriangleZF_finite_witness :
    inPlaneTriangleF.verticesFinite = true ∧
    (FVal.fin 5).isFinite = true ∧
    inPlaneTriangleF.hasEdgeAtZ (FVal.fin 5) = true ∧
    intersectTriangleZF inPlaneTriangleF (FVal.fin 5) =
      some ⟨⟨FVal.fin 0, FVal.fin 0, FVal.fin 5⟩, ⟨FVal.fin 1, FVal.fin 0, FVal.fin 5⟩⟩ ∧
    SegmentF.finiteB ⟨⟨FVal.fin 0, FVal.fin 0, FVal.fin 5⟩,
      ⟨FVal.fin 1, FVal.fin 0, FVal.fin 5⟩⟩ = true := by
  have heq : intersectTriangleZF inPlaneTriangleF (FVal.fin 5) =
      some ⟨⟨FVal.fin 0, FVal.fin 0, FVal.fin 5⟩, ⟨FVal.fin 1, FVal.fin 0, FVal.fin 5⟩⟩ := by
    norm_num [intersectTriangleZF, intersectEdgeF, inPlaneTriangleF, FVal.leb, FVal.ltb,
      FVal.sub, FVal.neg, FVal.add, FVal.div, FVal.mul]
  exact ⟨rfl, rfl, by norm_num [inPlaneTriangleF, TriangleF.hasEdgeAtZ], heq,
    intersectTriangleZF_finite inPlaneTriangleF (FVal.fin 5) _ rfl rfl heq⟩

/-! ## Exactness of the iteration bounds

The source's stitcher and Z loop are unbounded `while` / `for` loops; the
embedding bounds them with fuel.  The lemmas below show the chosen fuels
are exact: any fuel at least the pool size (stitcher) or at least the
layer count (Z loop, for positive layer height) computes the same result,
so the bounded definitions coincide with the source's loops.  -/

lemma findMatch_length (cond : Segment → Bool) :
    ∀ (pool rest : List Segment) (m : Segment),
      findMatch cond pool = some (m, rest) → rest.length + 1 = pool.length := by
  intro pool
  induction pool with
  | nil => intro rest m h; cases h
  | cons s ps ih =>
    intro rest m h
    by_cases hc : cond s = true
    · rw [findMatch, if_pos hc] at h
      cases h
      rfl
    · rw [findMatch, if_neg hc] at h
      rcases hm : findMatch cond ps with _ | ⟨m2, r2⟩
      · rw [hm] at h; cases h
      · rw [hm] at h
        simp only [Option.some.injEq, Prod.mk.injEq] at h
        rcases h with ⟨rfl, rfl⟩
        have := ih r2 m2 hm
        simp only [List.length_cons]
        omega

lemma growLoop_pool_le (hyp : ℚ → ℚ → ℚ) :
    ∀ (fuel : ℕ) (loop : List Position) (pool : List Segment),
      (growLoop hyp fuel loop pool).2.length ≤ pool.length := by
  intro fuel
  induction fuel with
  | zero => intro loop pool; exact le_refl _
  | succ n ih =>
    intro loop pool
    simp only [growLoop]
    rcases hfm : findMatch (fun seg => near hyp EPSILON seg.start (loop.getLastD ⟨0, 0, 0⟩) ||
        near hyp EPSILON seg.endPt (loop.getLastD ⟨0, 0, 0⟩)) pool with _ | ⟨nextSeg, rest⟩
    · exact le_refl _
    · have hr := findMatch_length _ pool rest nextSeg hfm
      exact le_trans (ih _ rest) (by omega)

lemma growLoop_fuel_irrel (hyp : ℚ → ℚ → ℚ) :
    ∀ (n : ℕ) (pool : List Segment) (loop : List Position) (f1 f2 : ℕ),
      pool.length ≤ n → pool.length ≤ f1 → pool.length ≤ f2 →
      growLoop hyp f1 loop pool = growLoop hyp f2 loop pool := by
  intro n
  induction n with
  | zero =>
    intro pool loop f1 f2 hp _ _
    have hpool : pool = [] := List.length_eq_zero.1 (Nat.le_zero.1 hp)
    subst hpool
    cases f1 <;> cases f2 <;> simp [growLoop, findMatch]
  | succ n ih =>
    intro pool loop f1 f2 hp h1 h2
    rcases pool with _ | ⟨s, ps⟩
    · cases f1 <;> cases f2 <;> simp [growLoop, findMatch]
    rcases f1 with _ | f1
    · simp at h1
    rcases f2 with _ | f2
    · simp at h2
    simp only [growLoop]
    rcases hfm : findMatch (fun seg => near hyp EPSILON seg.start (loop.getLastD ⟨0, 0, 0⟩) ||
        near hyp EPSILON seg.endPt (loop.getLastD ⟨0, 0, 0⟩)) (s :: ps) with _ | ⟨m, rest⟩
    · rfl
    · have hr := findMatch_length _ (s :: ps) rest m hfm
      simp only [List.length_cons] at hp h1 h2 hr
      exact ih rest _ f1 f2 (by omega) (by omega) (by omega)

lemma chainLoop_fuel_irrel (hyp : ℚ → ℚ → ℚ) :
    ∀ (n : ℕ) (pool : List Segment) (acc : List (List Position)) (f1 f2 : ℕ),
      pool.length ≤ n → pool.length ≤ f1 → pool.length ≤ f2 →
      chainLoop hyp f1 pool acc = chainLoop hyp f2 pool acc := by
  intro n
  induction n with
  | zero =>
    intro pool acc f1 f2 hp _ _
    have hpool : pool = [] := List.length_eq_zero.1 (Nat.le_zero.1 hp)
    subst hpool
    cases f1 <;> cases f2 <;> simp [chainLoop]
  | succ n ih =>
    intro pool acc f1 f2 hp h1 h2
    rcases pool with _ | ⟨s0, ps⟩
    · cases f1 <;> cases f2 <;> simp [chainLoop]
    rcases f1 with _ | f1
    · simp at h1
    rcases f2 with _ | f2
    · simp at h2
    simp only [chainLoop]
    rcases hlast : (s0 :: ps).getLast? with _ | firstSeg
    · rfl
    · have hdrop : (s0 :: ps).dropLast.length = ps.length := by
        simp [List.length_dropLast]
      have hg := growLoop_pool_le hyp (s0 :: ps).dropLast.length
        [firstSeg.start, firstSeg.endPt] (s0 :: ps).dropLast
      simp only [List.length_cons] at hp h1 h2
      exact ih _ _ f1 f2 (by omega) (by omega) (by omega)

/-- With any fuel at least the initial segment count, the bounded outer
loop computes `chainSegments`: the fuel choice captures the source's
unbounded loop exactly. -/
lemma chainSegments_fuel (hyp : ℚ → ℚ → ℚ) (segments : List Segment) (f : ℕ)
    (hf : segments.length ≤ f) :
    chainLoop hyp f segments [] = chainSegments hyp segments :=
  chainLoop_fuel_irrel hyp segments.length segments [] f segments.length
    (le_refl _) hf (le_refl _)

lemma zLoop_eq_map_of_le (maxZ h : ℚ) (hh : 0 < h) :
    ∀ (f : ℕ) (z : ℚ), (⌊(maxZ - z) / h⌋ + 1).toNat ≤ f →
      zLoop maxZ h z f = (List.range (⌊(maxZ - z) / h⌋ + 1).toNat).map
        fun i : ℕ => z + (i : ℚ) * h := by
  intro f
  induction f with
  | zero =>
    intro z hf
    have hn : (⌊(maxZ - z) / h⌋ + 1).toNat = 0 := Nat.le_zero.1 hf
    simp [zLoop, hn]
  | succ f ih =>
    intro z hf
    by_cases hz : z ≤ maxZ
    · have hfl : 0 ≤ ⌊(maxZ - z) / h⌋ := Int.floor_nonneg.2 (div_nonneg (by linarith) hh.le)
      have hshift : ⌊(maxZ - (z + h)) / h⌋ = ⌊(maxZ - z) / h⌋ - 1 := by
        have hdiv : (maxZ - (z + h)) / h = (maxZ - z) / h - 1 := by
          field_simp
          ring
        rw [hdiv, Int.floor_sub_one]
      have hcount : (⌊(maxZ - z) / h⌋ + 1).toNat = (⌊(maxZ - (z + h)) / h⌋ + 1).toNat + 1 := by
        rw [hshift]; omega
      rw [zLoop, if_pos hz, ih (z + h) (by omega), hcount, List.range_succ_eq_map,
        List.map_cons, List.map_map]
      simp only [Nat.cast_zero, zero_mul, add_zero]
      congr 1
      apply List.map_congr_left
      intro i _
      simp only [Function.comp_apply]
      push_cast
      ring
    · rw [zLoop, if_neg hz]
      have hne : ⌊(maxZ - z) / h⌋ < 0 := by
        refine Int.floor_lt.2 ?_
        push_cast
        exact div_neg_of_neg_of_pos (by linarith) hh
      have hn : (⌊(maxZ - z) / h⌋ + 1).toNat = 0 := by omega
      simp [hn]

/-- With any fuel at least the exact iteration count, the bounded Z loop
computes `layerZList`: for positive layer heights the fuel choice captures
the source's unbounded loop exactly. -/
lemma layerZList_fuel (minZ maxZ h : ℚ) (hh : 0 < h) (f : ℕ)
    (hf : (⌊(maxZ - (minZ + 1 / 5)) / h⌋ + 1).toNat ≤ f) :
    zLoop maxZ h (minZ + 1 / 5) f = layerZList minZ maxZ h := by
  rw [zLoop_eq_map_of_le maxZ h hh f (minZ + 1 / 5) hf, layerZList_eq_map minZ maxZ h hh]
